import Mathlib

set_option autoImplicit false

/-!
Shallow embedding of `src/main.py`, a single-user personal finance ledger:
a CSV store (`finances.csv`, header row `id,date,type,amount,category,description`
followed by one row per record) plus a separately persisted integer counter
(`last_id.txt`).  Pure functions of the source become Lean functions; the two
files become an explicit state (`FS`) threaded through the operations; Python
exceptions (`IndexError` from `finances[0]` on an empty list, `ValueError` from
`int(...)` on malformed text) become `Except PyError`.
-/

namespace Finance

/-- One transaction entry: the six string fields of a data row of
`finances.csv`, in the fixed order of the header written by
`check_and_create_file` (src/main.py line 17) and `add_entry` (lines 88-95). -/
structure Record where
  id : String
  date : String
  type : String
  amount : String
  category : String
  description : String
  deriving DecidableEq, Repr

/-- Python exceptions that can escape the embedded operations:
`IndexError` from `finances[0]` in `write_data` (line 41) and `ValueError`
from `int(file.read())` in `load_last_id` (line 64). -/
inductive PyError where
  | indexError
  | valueError
  deriving DecidableEq, Repr

/-- The fixed header of the store file (src/main.py line 17). -/
def fieldNames : List String :=
  ["id", "date", "type", "amount", "category", "description"]

/-- The keys of a record dict, in insertion order.  Every record dict built by
the program (`add_entry` lines 88-95, `csv.DictReader` rows) has exactly the
six field names in header order, which the `Record` structure makes intrinsic. -/
def Record.keys (_ : Record) : List String := fieldNames

/-- The CSV data row of a record, values in header order (what
`csv.DictWriter.writerows` emits for the record dict). -/
def Record.toRow (r : Record) : List String :=
  [r.id, r.date, r.type, r.amount, r.category, r.description]

/-- The store file at the parsed-CSV level: a header row and the data rows.
The `csv` module's quoting makes the text level a bijective image of this. -/
structure StoreFile where
  header : List String
  rows : List (List String)
  deriving DecidableEq, Repr

/-- Embeds `write_data` (src/main.py lines 33-43): overwrite the store file
with a header taken from the first record's keys, then one row per record.
`finances[0]` raises `IndexError` when the list is empty. -/
def write_data (finances : List Record) : Except PyError StoreFile :=
  match finances with
  | [] => .error .indexError
  | first :: _ => .ok { header := first.keys, rows := finances.map Record.toRow }

/-- Decode one CSV data row back into a record dict, as `csv.DictReader` pairs
it with the six-name header.  `none` when the row does not have exactly six
cells (such a row is not in the image of `write_data`). -/
def recordOfRow : List String → Option Record
  | [i, d, t, a, c, de] => some { id := i, date := d, type := t, amount := a,
                                  category := c, description := de }
  | _ => none

/-- Decode the data rows in order, failing if any row fails to decode. -/
def decodeRows : List (List String) → Option (List Record)
  | [] => some []
  | row :: rest => do
    let r ← recordOfRow row
    let rs ← decodeRows rest
    pure (r :: rs)

/-- Embeds `read_data` (src/main.py lines 22-31): read every row after the
header into a record.  `none` when the file is not a well-formed six-column
store (Python's `DictReader` would then yield dicts outside the `Record`
shape; no file written by this program is of that kind). -/
def read_data (f : StoreFile) : Option (List Record) :=
  if f.header = fieldNames then decodeRows f.rows else none

/-! Python's `int(str)` on base-10 text: strip surrounding whitespace, then an
optional sign followed by a nonempty digit string.  The model omits `int()`'s
underscore-separator and Unicode digit/whitespace extensions, so its `none`
domain is wider than `int()`'s `ValueError` domain.  The theorems therefore
use `pyInt` only on its success domain, where it agrees exactly with `int()`
(well-formed content, and the pure-ASCII output of `pyStr`), or under
`strictlyMalformed`, a criterion sound for genuine `ValueError` failure. -/

/-- Whitespace as stripped by `int()` (space, tab, LF, VT, FF, CR). -/
def isSpaceC (c : Char) : Bool :=
  c.toNat = 32 || c.toNat = 9 || c.toNat = 10 || c.toNat = 11 ||
  c.toNat = 12 || c.toNat = 13

/-- Strip leading and trailing whitespace. -/
def trimChars (cs : List Char) : List Char :=
  ((cs.dropWhile isSpaceC).reverse.dropWhile isSpaceC).reverse

/-- ASCII decimal digit. -/
def isDigitC (c : Char) : Bool :=
  48 ≤ c.toNat && c.toNat ≤ 57

/-- Horner evaluation of a digit string, starting from `v`. -/
def valFrom (v : Nat) (cs : List Char) : Nat :=
  cs.foldl (fun a c => a * 10 + (c.toNat - 48)) v

/-- Value of a nonempty all-digit string; `none` otherwise. -/
def parseDigits (cs : List Char) : Option Nat :=
  if cs.isEmpty || !(cs.all isDigitC) then none else some (valFrom 0 cs)

/-- Sign handling of `int()` after stripping. -/
def pyIntChars (cs : List Char) : Option Int :=
  match cs with
  | [] => none
  | c :: rest =>
    if c = '-' then (parseDigits rest).map (fun v : Nat => -(v : Int))
    else if c = '+' then (parseDigits rest).map (fun v : Nat => (v : Int))
    else (parseDigits (c :: rest)).map (fun v : Nat => (v : Int))

/-- Models Python's `int(s)` in base 10: `some n` on well-formed input,
`none` where `int` raises `ValueError`. -/
def pyInt (s : String) : Option Int :=
  pyIntChars (trimChars s.toList)

/-- Characters that may occur in a base-10 string accepted by `int()`, within
the ASCII range: digits, the two signs, the underscore separator, and
whitespace.  A string containing an ASCII character outside this set raises
`ValueError` in `int()`, whatever use the string makes of the underscore,
Unicode digit, and Unicode whitespace extensions, since those extensions only
admit further non-ASCII characters or the underscore itself. -/
def asciiIntChar (c : Char) : Bool :=
  isDigitC c || c = '+' || c = '-' || c = '_' || isSpaceC c

/-- A sound syntactic criterion for `int()` failure: the string contains an
ASCII character that can occur nowhere in an accepted numeral.  On this
domain `pyInt` and Python's `int()` agree: both fail. -/
def strictlyMalformed (s : String) : Bool :=
  s.toList.any (fun c => c.toNat < 128 && !(asciiIntChar c))

/-- Decimal digits of `n`, most significant first, accumulated into `acc`.
Structural recursion on a fuel argument; `fuel ≥ n` is always enough since
`n` strictly decreases at each division by 10. -/
def natToDecimalAux : Nat → Nat → List Char → List Char
  | 0, _, acc => acc
  | fuel + 1, n, acc =>
    if n = 0 then acc
    else natToDecimalAux fuel (n / 10) (Nat.digitChar (n % 10) :: acc)

/-- Decimal digits of `n` (`['0']` for zero). -/
def natToDecimal (n : Nat) : List Char :=
  if n = 0 then ['0'] else natToDecimalAux n n []

/-- Models Python's `str(n)` for an integer: optional minus sign followed by
the decimal digits. -/
def pyStr (n : Int) : String :=
  if n < 0 then ⟨'-' :: natToDecimal n.natAbs⟩ else ⟨natToDecimal n.natAbs⟩

/-- Embeds `load_last_id` (src/main.py lines 55-66) as a function of the
content of `last_id.txt` (`none` = file absent).  Only `FileNotFoundError`
is caught (returning 1); a present but malformed file raises `ValueError`. -/
def load_last_id (lastIdFile : Option String) : Except PyError Int :=
  match lastIdFile with
  | none => .ok 1
  | some content =>
    match pyInt content with
    | some n => .ok n
    | none => .error .valueError

/-- Embeds `get_next_id` (src/main.py lines 68-75): `load_last_id() + 1`. -/
def get_next_id (lastIdFile : Option String) : Except PyError Int :=
  (load_last_id lastIdFile).map (· + 1)

/-- The persistent state the program manipulates: the data rows of
`finances.csv` (decoded, the codec being `write_data`/`read_data`) and the
content of `last_id.txt` (`none` = absent). -/
structure FS where
  store : List Record
  lastIdFile : Option String
  deriving DecidableEq, Repr

/-- The five field values a user types during `add_entry` or `edit_entry`
(the `id` field is never prompted for). -/
structure FieldInput where
  date : String
  type : String
  amount : String
  category : String
  description : String
  deriving DecidableEq, Repr

/-- The record dict `add_entry` builds (src/main.py lines 88-95):
`str(entry_id)` plus the five typed values. -/
def mkEntry (entry_id : Int) (inp : FieldInput) : Record :=
  { id := pyStr entry_id, date := inp.date, type := inp.type,
    amount := inp.amount, category := inp.category,
    description := inp.description }

/-- Embeds `add_entry` (src/main.py lines 77-101): generate the next id,
build the record from the typed values, append it to the loaded store, write
the store back, persist the counter as `str(entry_id)`. -/
def add_entry (inp : FieldInput) (s : FS) : Except PyError FS := do
  let entry_id ← get_next_id s.lastIdFile
  let new_entry := mkEntry entry_id inp
  let finances := s.store ++ [new_entry]
  let _ ← write_data finances
  pure { store := finances, lastIdFile := some (pyStr entry_id) }

/-- Embeds `search_by_id` (src/main.py lines 103-117): linear scan of the
loaded store for the first record whose `id` equals the query string; `none`
when there is no match.  The source function performs no writes, which the
type records: it returns only the search result. -/
def search_by_id (entry_id : String) (s : FS) : Option Record :=
  s.store.find? (fun entry => entry.id == entry_id)

/-- The per-field update block of `edit_entry` (src/main.py lines 140-148):
each field independently takes the typed value when it is non-blank and keeps
the prior value when it is blank; `id` is never touched. -/
def applyOverrides (inp : FieldInput) (entry : Record) : Record :=
  { id := entry.id,
    date := if inp.date ≠ "" then inp.date else entry.date,
    type := if inp.type ≠ "" then inp.type else entry.type,
    amount := if inp.amount ≠ "" then inp.amount else entry.amount,
    category := if inp.category ≠ "" then inp.category else entry.category,
    description := if inp.description ≠ "" then inp.description
                   else entry.description }

/-- The replacement loop of `edit_entry` (src/main.py lines 150-153):
overwrite the first record whose `id` matches, in place, and stop (`break`). -/
def replaceFirst (entry_id : String) (entry : Record) : List Record → List Record
  | [] => []
  | e :: rest =>
    if e.id == entry_id then entry :: rest
    else e :: replaceFirst entry_id entry rest

/-- Embeds `edit_entry` (src/main.py lines 128-159): locate the record via
`search_by_id`, apply the per-field overrides, overwrite the first matching
position, write the store back.  When no record matches, only a message and
the id listing are printed and no write happens, so the state is returned
unchanged.  The counter file is never written by this operation. -/
def edit_entry (entry_id : String) (inp : FieldInput) (s : FS) :
    Except PyError FS := do
  let finances := s.store
  match search_by_id entry_id s with
  | none => pure s
  | some entry =>
    let entry := applyOverrides inp entry
    let finances := replaceFirst entry_id entry finances
    let _ ← write_data finances
    pure { s with store := finances }

/-- A sequence of `add_entry` operations, each with its own typed field
values, run left to right. -/
def addN (inputs : List FieldInput) (s : FS) : Except PyError FS :=
  match inputs with
  | [] => .ok s
  | inp :: rest => do
    let s' ← add_entry inp s
    addN rest s'

/-- The start state of claim C1: empty store (header only) and absent
counter file. -/
def initFS : FS :=
  { store := [], lastIdFile := none }

/-- The records a run of adds produces when the counter currently reads `k`:
ids `str(k+1), str(k+2), ...`, one per input, in input order. -/
def expectedRecords (k : Int) : List FieldInput → List Record
  | [] => []
  | inp :: rest => mkEntry (k + 1) inp :: expectedRecords (k + 1) rest

/-! Round trip of the counter through `str` and `int`: `save_last_id` writes
`pyStr n` and the next `load_last_id` parses it back. -/

lemma isDigitC_digitChar {m : Nat} (h : m < 10) :
    isDigitC (Nat.digitChar m) = true := by
  interval_cases m <;> decide

lemma toNat_digitChar {m : Nat} (h : m < 10) :
    (Nat.digitChar m).toNat - 48 = m := by
  interval_cases m <;> decide

lemma natToDecimalAux_zero (fuel : Nat) (acc : List Char) :
    natToDecimalAux fuel 0 acc = acc := by
  cases fuel <;> simp [natToDecimalAux]

lemma natToDecimalAux_succ {fuel n : Nat} (h : n ≠ 0) (acc : List Char) :
    natToDecimalAux (fuel + 1) n acc =
      natToDecimalAux fuel (n / 10) (Nat.digitChar (n % 10) :: acc) := by
  simp [natToDecimalAux, h]

lemma natToDecimalAux_append (fuel : Nat) :
    ∀ (n : Nat) (acc : List Char),
      natToDecimalAux fuel n acc = natToDecimalAux fuel n [] ++ acc := by
  induction fuel with
  | zero => intro n acc; rfl
  | succ fuel ih =>
    intro n acc
    by_cases h : n = 0
    · subst h; rw [natToDecimalAux_zero, natToDecimalAux_zero]; rfl
    · rw [natToDecimalAux_succ h, natToDecimalAux_succ h,
          ih (n / 10) (Nat.digitChar (n % 10) :: acc),
          ih (n / 10) [Nat.digitChar (n % 10)], List.append_assoc]
      rfl

lemma natToDecimalAux_digits (fuel : Nat) :
    ∀ (n : Nat) (acc : List Char), (∀ c ∈ acc, isDigitC c = true) →
      ∀ c ∈ natToDecimalAux fuel n acc, isDigitC c = true := by
  induction fuel with
  | zero => intro n acc hacc; exact hacc
  | succ fuel ih =>
    intro n acc hacc
    by_cases h : n = 0
    · subst h; rw [natToDecimalAux_zero]; exact hacc
    · rw [natToDecimalAux_succ h]
      refine ih (n / 10) _ ?_
      intro c hc
      rcases List.mem_cons.mp hc with hc | hc
      · subst hc; exact isDigitC_digitChar (Nat.mod_lt _ (by omega))
      · exact hacc c hc

lemma valFrom_append (v : Nat) (xs ys : List Char) :
    valFrom v (xs ++ ys) = valFrom (valFrom v xs) ys := by
  simp [valFrom, List.foldl_append]

lemma valFrom_natToDecimalAux (fuel : Nat) :
    ∀ n : Nat, 0 < n → n ≤ fuel →
      valFrom 0 (natToDecimalAux fuel n []) = n := by
  induction fuel with
  | zero => intro n h1 h2; omega
  | succ fuel ih =>
    intro n h1 h2
    rw [natToDecimalAux_succ (by omega), natToDecimalAux_append]
    have hd := toNat_digitChar (show n % 10 < 10 from Nat.mod_lt _ (by omega))
    by_cases h : n / 10 = 0
    · rw [h, natToDecimalAux_zero]
      show 0 * 10 + ((Nat.digitChar (n % 10)).toNat - 48) = n
      rw [hd]; omega
    · have hfuel : n / 10 ≤ fuel := by
        have := Nat.div_lt_self h1 (show 1 < 10 by omega)
        omega
      rw [valFrom_append, ih (n / 10) (Nat.pos_of_ne_zero h) hfuel]
      show (n / 10) * 10 + ((Nat.digitChar (n % 10)).toNat - 48) = n
      rw [hd]; omega

lemma natToDecimal_digits (n : Nat) : ∀ c ∈ natToDecimal n, isDigitC c = true := by
  by_cases h : n = 0
  · subst h; intro c hc; simp [natToDecimal] at hc; subst hc; decide
  · simp only [natToDecimal, if_neg h]
    exact natToDecimalAux_digits n n [] (by intro c hc; cases hc)

lemma natToDecimal_ne_nil (n : Nat) : natToDecimal n ≠ [] := by
  by_cases h : n = 0
  · subst h; simp [natToDecimal]
  · simp only [natToDecimal, if_neg h]
    cases n with
    | zero => omega
    | succ m =>
      rw [natToDecimalAux_succ h, natToDecimalAux_append]
      simp

lemma valFrom_natToDecimal (n : Nat) : valFrom 0 (natToDecimal n) = n := by
  by_cases h : n = 0
  · subst h; decide
  · simp only [natToDecimal, if_neg h]
    exact valFrom_natToDecimalAux n n (Nat.pos_of_ne_zero h) le_rfl

lemma dropWhile_all_not {p : Char → Bool} {l : List Char}
    (h : ∀ c ∈ l, p c = false) : l.dropWhile p = l := by
  cases l with
  | nil => rfl
  | cons c cs => simp [List.dropWhile_cons, h c (by simp)]

lemma isDigitC_not_space {c : Char} (h : isDigitC c = true) :
    isSpaceC c = false := by
  simp only [isDigitC, Bool.and_eq_true, decide_eq_true_eq] at h
  simp only [isSpaceC, Bool.or_eq_false_iff, decide_eq_false_iff_not]
  omega

lemma trimChars_digits {cs : List Char} (h : ∀ c ∈ cs, isDigitC c = true) :
    trimChars cs = cs := by
  unfold trimChars
  rw [dropWhile_all_not (fun c hc => isDigitC_not_space (h c hc)),
      dropWhile_all_not (fun c hc =>
        isDigitC_not_space (h c (List.mem_reverse.mp hc))),
      List.reverse_reverse]

lemma isDigitC_ne_sign {c : Char} (h : isDigitC c = true) :
    c ≠ '-' ∧ c ≠ '+' := by
  constructor <;> rintro rfl <;> exact absurd h (by decide)

lemma pyIntChars_digits {cs : List Char} (hne : cs ≠ [])
    (hd : ∀ c ∈ cs, isDigitC c = true) :
    pyIntChars cs = some ((valFrom 0 cs : Nat) : Int) := by
  cases cs with
  | nil => exact absurd rfl hne
  | cons c rest =>
    have hc := hd c (by simp)
    obtain ⟨h1, h2⟩ := isDigitC_ne_sign hc
    have hall : (c :: rest).all isDigitC = true := by
      rw [List.all_eq_true]; exact hd
    simp [pyIntChars, if_neg h1, if_neg h2, parseDigits, hall]

lemma pyInt_natToDecimal (n : Nat) : pyInt ⟨natToDecimal n⟩ = some (n : Int) := by
  unfold pyInt
  have hd := natToDecimal_digits n
  rw [show (String.mk (natToDecimal n)).toList = natToDecimal n from rfl,
      trimChars_digits hd, pyIntChars_digits (natToDecimal_ne_nil n) hd,
      valFrom_natToDecimal]

lemma pyStr_nonneg {n : Int} (h : 0 ≤ n) :
    pyStr n = ⟨natToDecimal n.natAbs⟩ := by
  unfold pyStr
  rw [if_neg (by omega)]

lemma pyInt_pyStr {n : Int} (h : 0 ≤ n) : pyInt (pyStr n) = some n := by
  rw [pyStr_nonneg h, pyInt_natToDecimal]
  congr 1
  exact Int.natAbs_of_nonneg h

lemma load_last_id_pyStr {n : Int} (h : 0 ≤ n) :
    load_last_id (some (pyStr n)) = .ok n := by
  simp [load_last_id, pyInt_pyStr h]

lemma mem_dropWhile_of_not {p : Char → Bool} {c : Char} (hc : p c = false) :
    ∀ {l : List Char}, c ∈ l → c ∈ l.dropWhile p := by
  intro l
  induction l with
  | nil => intro h; cases h
  | cons a t ih =>
    intro h
    rw [List.dropWhile_cons]
    by_cases ha : p a = true
    · rw [if_pos ha]
      rcases List.mem_cons.mp h with rfl | h
      · rw [hc] at ha; cases ha
      · exact ih h
    · rw [if_neg ha]
      exact h

lemma mem_trimChars_of_not_space {c : Char} {cs : List Char}
    (hc : isSpaceC c = false) (h : c ∈ cs) : c ∈ trimChars cs := by
  unfold trimChars
  rw [List.mem_reverse]
  refine mem_dropWhile_of_not hc ?_
  rw [List.mem_reverse]
  exact mem_dropWhile_of_not hc h

lemma asciiIntChar_false {c : Char} (h : asciiIntChar c = false) :
    isDigitC c = false ∧ c ≠ '+' ∧ c ≠ '-' ∧ isSpaceC c = false := by
  simp only [asciiIntChar, Bool.or_eq_false_iff, decide_eq_false_iff_not] at h
  refine ⟨?_, ?_, ?_, ?_⟩ <;> tauto

lemma parseDigits_of_bad {cs : List Char} {c : Char} (hc : c ∈ cs)
    (hd : isDigitC c = false) : parseDigits cs = none := by
  have hall : cs.all isDigitC = false := by
    rw [List.all_eq_false]
    exact ⟨c, hc, by simp [hd]⟩
  simp [parseDigits, hall]

lemma pyIntChars_of_bad {cs : List Char} {c : Char} (hmem : c ∈ cs)
    (hd : isDigitC c = false) (hp : c ≠ '+') (hm : c ≠ '-') :
    pyIntChars cs = none := by
  have hnone : ∀ l : List Char, c ∈ l → parseDigits l = none :=
    fun l hl => parseDigits_of_bad hl hd
  cases cs with
  | nil => rfl
  | cons c0 rest =>
    rcases List.mem_cons.mp hmem with rfl | hm2
    · simp [pyIntChars, hm, hp, hnone (c :: rest) (List.mem_cons_self c rest)]
    · by_cases h0m : c0 = '-'
      · subst h0m
        simp [pyIntChars, hnone rest hm2]
      · by_cases h0p : c0 = '+'
        · subst h0p
          have hpm : ('+' : Char) ≠ '-' := by decide
          simp [pyIntChars, hpm, hnone rest hm2]
        · simp [pyIntChars, h0m, h0p,
            hnone (c0 :: rest) (List.mem_cons_of_mem c0 hm2)]

lemma pyInt_strictlyMalformed {s : String} (h : strictlyMalformed s = true) :
    pyInt s = none := by
  unfold strictlyMalformed at h
  rw [List.any_eq_true] at h
  obtain ⟨c, hmem, hc⟩ := h
  rw [Bool.and_eq_true, Bool.not_eq_true'] at hc
  obtain ⟨-, hbad⟩ := hc
  obtain ⟨hd, hp, hm, hs⟩ := asciiIntChar_false hbad
  unfold pyInt
  exact pyIntChars_of_bad (mem_trimChars_of_not_space hs hmem) hd hp hm

/-! Behaviour of the store operations. -/

lemma write_data_ne_nil {l : List Record} (h : l ≠ []) :
    write_data l = .ok ⟨fieldNames, l.map Record.toRow⟩ := by
  cases l with
  | nil => exact absurd rfl h
  | cons r rs => rfl

lemma add_entry_eq {s : FS} {k : Int} (inp : FieldInput)
    (h : load_last_id s.lastIdFile = .ok k) :
    add_entry inp s =
      .ok { store := s.store ++ [mkEntry (k + 1) inp],
            lastIdFile := some (pyStr (k + 1)) } := by
  have hw := write_data_ne_nil (l := s.store ++ [mkEntry (k + 1) inp]) (by simp)
  simp [add_entry, get_next_id, h, hw, Except.map, Bind.bind, Except.bind,
    Pure.pure, Except.pure]

lemma find?_first {q : String} (r : Record) (l₂ : List Record) (hid : r.id = q) :
    ∀ l₁ : List Record, (∀ r' ∈ l₁, r'.id ≠ q) →
      (l₁ ++ r :: l₂).find? (fun e => e.id == q) = some r := by
  intro l₁
  induction l₁ with
  | nil =>
    intro _
    exact List.find?_cons_of_pos _ (by simp [hid])
  | cons a l ih =>
    intro hfirst
    rw [List.cons_append, List.find?_cons_of_neg _ (by simp [hfirst a (List.mem_cons_self a l)])]
    exact ih (fun r' hr' => hfirst r' (List.mem_cons_of_mem a hr'))

lemma replaceFirst_eq {q : String} (e r : Record) (l₂ : List Record)
    (hid : r.id = q) :
    ∀ l₁ : List Record, (∀ r' ∈ l₁, r'.id ≠ q) →
      replaceFirst q e (l₁ ++ r :: l₂) = l₁ ++ e :: l₂ := by
  intro l₁
  induction l₁ with
  | nil =>
    intro _
    simp [replaceFirst, hid]
  | cons a l ih =>
    intro hfirst
    have ha : (a.id == q) = false := by
      simp [hfirst a (List.mem_cons_self a l)]
    rw [List.cons_append, List.cons_append]
    simp only [replaceFirst, ha]
    rw [ih (fun r' hr' => hfirst r' (List.mem_cons_of_mem a hr'))]
    simp

lemma edit_entry_found {q : String} (inp : FieldInput) {s : FS}
    {l₁ l₂ : List Record} {r : Record} (hsplit : s.store = l₁ ++ r :: l₂)
    (hid : r.id = q) (hfirst : ∀ r' ∈ l₁, r'.id ≠ q) :
    edit_entry q inp s =
      .ok { store := l₁ ++ applyOverrides inp r :: l₂,
            lastIdFile := s.lastIdFile } := by
  have hs : search_by_id q s = some r := by
    unfold search_by_id
    rw [hsplit]
    exact find?_first r l₂ hid l₁ hfirst
  have hrep := replaceFirst_eq (applyOverrides inp r) r l₂ hid l₁ hfirst
  have hw := write_data_ne_nil (l := l₁ ++ applyOverrides inp r :: l₂) (by simp)
  simp [edit_entry, hs, hsplit, hrep, hw, Bind.bind, Except.bind,
    Pure.pure, Except.pure]

lemma edit_entry_notfound {q : String} (inp : FieldInput) {s : FS}
    (h : ∀ r ∈ s.store, r.id ≠ q) :
    edit_entry q inp s = .ok s := by
  have hs : search_by_id q s = none := by
    unfold search_by_id
    rw [List.find?_eq_none]
    intro r hr
    simp [h r hr]
  simp [edit_entry, hs, Pure.pure, Except.pure]

lemma applyOverrides_blank (r : Record) :
    applyOverrides ⟨"", "", "", "", ""⟩ r = r := rfl

lemma addN_ok :
    ∀ (inputs : List FieldInput) (s : FS) (k : Int),
      load_last_id s.lastIdFile = .ok k → 0 ≤ k →
      addN inputs s =
        .ok { store := s.store ++ expectedRecords k inputs,
              lastIdFile :=
                if inputs = [] then s.lastIdFile
                else some (pyStr (k + inputs.length)) } := by
  intro inputs
  induction inputs with
  | nil =>
    intro s k h hk
    simp [addN, expectedRecords]
  | cons inp rest ih =>
    intro s k h hk
    have hadd := add_entry_eq inp h
    have hnext : load_last_id (some (pyStr (k + 1))) = .ok (k + 1) :=
      load_last_id_pyStr (by omega)
    have ihr := ih { store := s.store ++ [mkEntry (k + 1) inp],
                     lastIdFile := some (pyStr (k + 1)) } (k + 1) hnext (by omega)
    rw [show addN (inp :: rest) s =
          addN rest { store := s.store ++ [mkEntry (k + 1) inp],
                      lastIdFile := some (pyStr (k + 1)) } from by
        simp [addN, hadd, Bind.bind, Except.bind], ihr]
    simp only [Except.ok.injEq, FS.mk.injEq]
    refine ⟨by simp [expectedRecords, List.append_assoc], ?_⟩
    rw [if_neg (show ¬(inp :: rest = []) from by simp)]
    by_cases hrest : rest = []
    · subst hrest
      rw [if_pos rfl]
      congr 2
    · rw [if_neg hrest]
      congr 2
      all_goals push_cast [List.length_cons]
      all_goals ring

lemma expectedRecords_length :
    ∀ (inputs : List FieldInput) (k : Int),
      (expectedRecords k inputs).length = inputs.length := by
  intro inputs
  induction inputs with
  | nil => intro k; rfl
  | cons inp rest ih => intro k; simp [expectedRecords, ih (k + 1)]

lemma expectedRecords_map_id :
    ∀ (inputs : List FieldInput) (k : Int),
      (expectedRecords k inputs).map Record.id =
        (List.range inputs.length).map
          (fun i : Nat => pyStr (k + 1 + (i : Int))) := by
  intro inputs
  induction inputs with
  | nil => intro k; rfl
  | cons inp rest ih =>
    intro k
    rw [List.length_cons, List.range_succ_eq_map]
    simp only [expectedRecords, List.map_cons, List.map_map, mkEntry]
    congr 1
    · simp
    · rw [ih (k + 1)]
      refine List.map_congr_left ?_
      intro i _
      simp only [Function.comp]
      congr 1
      push_cast
      ring

lemma decodeRows_toRow (l : List Record) :
    decodeRows (l.map Record.toRow) = some l := by
  induction l with
  | nil => rfl
  | cons r rs ih =>
    simp [decodeRows, ih, recordOfRow, Record.toRow]

/-! Concrete states used by the witnesses. -/

/-- A first sample record (the id "2" a first add would assign). -/
def rec1 : Record := ⟨"2", "2024-01-01", "income", "100", "salary", "Jan"⟩

/-- A second sample record. -/
def rec2 : Record := ⟨"3", "2024-01-02", "expense", "40", "food", "Groceries"⟩

/-- A record sharing the id of `rec1`, for the duplicate-id scenario. -/
def rec2dup : Record := ⟨"2", "2024-02-02", "expense", "7", "misc", "Dup"⟩

/-- A two-record store with its counter at 3. -/
def fsEx : FS := { store := [rec1, rec2], lastIdFile := some "3" }

/-- A store holding two records with the same id "2". -/
def fsDup : FS := { store := [rec1, rec2dup], lastIdFile := some "3" }

/-! The claims. -/

/-- C1: Starting from an empty store (header only) and an absent counter
file, after N add operations (each supplying arbitrary field values) and no
edits, the store contains exactly N records, in insertion order, whose ids
are the strings "2", "3", ..., "N+1", and the persisted counter equals N+1
(for N = 0 nothing was persisted and the counter still loads as 1). -/
theorem spec_c1 (inputs : List FieldInput) :
    addN inputs initFS =
      .ok { store := expectedRecords 1 inputs,
            lastIdFile :=
              if inputs = [] then none
              else some (pyStr ((inputs.length : Int) + 1)) } ∧
    (expectedRecords 1 inputs).length = inputs.length ∧
    (expectedRecords 1 inputs).map Record.id =
      (List.range inputs.length).map (fun i : Nat => pyStr ((i : Int) + 2)) ∧
    load_last_id (if inputs = [] then none
      else some (pyStr ((inputs.length : Int) + 1))) =
      .ok ((inputs.length : Int) + 1) := by
  have h := addN_ok inputs initFS 1 rfl (by omega)
  refine ⟨?_, expectedRecords_length inputs 1, ?_, ?_⟩
  · rw [h]
    simp only [initFS, List.nil_append]
    by_cases he : inputs = []
    · simp [he]
    · rw [if_neg he, if_neg he,
        show (1 : Int) + (inputs.length : Int) = (inputs.length : Int) + 1 from
          by ring]
  · rw [expectedRecords_map_id inputs 1]
    refine List.map_congr_left ?_
    intro i _
    congr 1
    push_cast
    ring
  · by_cases he : inputs = []
    · subst he
      norm_num [load_last_id]
    · rw [if_neg he, load_last_id_pyStr (by positivity)]

/-- C2: For every store and every id present in it, `edit_entry` with a mix
of blank and non-blank per-field overrides replaces exactly the fields given
non-blank values, keeps each blank-overridden field at its prior value, keeps
the edited record at its position (between the unchanged `l₁` and `l₂`), and
leaves every other record and the counter file untouched; with all overrides
blank the state is returned exactly as it was. -/
theorem spec_c2 (s : FS) (entry_id : String) (inp : FieldInput)
    (l₁ l₂ : List Record) (r : Record)
    (hsplit : s.store = l₁ ++ r :: l₂)
    (hid : r.id = entry_id)
    (hfirst : ∀ r' ∈ l₁, r'.id ≠ entry_id) :
    edit_entry entry_id inp s =
      .ok { store := l₁ ++
              { id := r.id,
                date := if inp.date ≠ "" then inp.date else r.date,
                type := if inp.type ≠ "" then inp.type else r.type,
                amount := if inp.amount ≠ "" then inp.amount else r.amount,
                category := if inp.category ≠ "" then inp.category
                            else r.category,
                description := if inp.description ≠ "" then inp.description
                               else r.description } :: l₂,
            lastIdFile := s.lastIdFile } ∧
    edit_entry entry_id ⟨"", "", "", "", ""⟩ s = .ok s := by
  constructor
  · exact edit_entry_found inp hsplit hid hfirst
  · have h := edit_entry_found ⟨"", "", "", "", ""⟩ hsplit hid hfirst
    rw [applyOverrides_blank] at h
    rw [h, ← hsplit]

theorem spec_c2_witness :
    edit_entry "2" ⟨"", "", "150", "", ""⟩ fsEx =
      .ok { store := [⟨"2", "2024-01-01", "income", "150", "salary", "Jan"⟩,
                      rec2],
            lastIdFile := some "3" } ∧
    edit_entry "2" ⟨"", "", "", "", ""⟩ fsEx = .ok fsEx := by
  have h := spec_c2 fsEx "2" ⟨"", "", "150", "", ""⟩ [] [rec2] rec1 rfl rfl
    (fun r' hr' => absurd hr' (List.not_mem_nil r'))
  exact h

/-- C3: For every store and query string, `search_by_id` scans records in
order comparing the `id` field as a string: it returns the first record whose
id equals the query, returns `none` when no record matches, and any returned
record does match and belong to the store.  The source function (src/main.py
lines 103-117) only reads; its embedding returns just the search result, so
no store mutation is possible. -/
theorem spec_c3 (s : FS) (q : String) :
    (∀ (l₁ : List Record) (r : Record) (l₂ : List Record),
        s.store = l₁ ++ r :: l₂ → r.id = q → (∀ r' ∈ l₁, r'.id ≠ q) →
        search_by_id q s = some r) ∧
    ((∀ r ∈ s.store, r.id ≠ q) → search_by_id q s = none) ∧
    (∀ r : Record, search_by_id q s = some r → r.id = q ∧ r ∈ s.store) := by
  refine ⟨?_, ?_, ?_⟩
  · intro l₁ r l₂ hsplit hid hfirst
    unfold search_by_id
    rw [hsplit]
    exact find?_first r l₂ hid l₁ hfirst
  · intro h
    unfold search_by_id
    rw [List.find?_eq_none]
    intro r hr
    simp [h r hr]
  · intro r h
    unfold search_by_id at h
    have h1 := List.find?_some h
    have h2 := List.mem_of_find?_eq_some h
    exact ⟨by simpa using h1, h2⟩

theorem spec_c3_witness :
    search_by_id "2" fsEx = some rec1 ∧ search_by_id "99" fsEx = none := by
  refine ⟨(spec_c3 fsEx "2").1 [] rec1 [rec2] rfl rfl
    (fun r' hr' => absurd hr' (List.not_mem_nil r')),
    (spec_c3 fsEx "99").2.1 ?_⟩
  decide

/-- C4: For every non-empty sequence of records (each having exactly the six
fields), writing it with `write_data` and loading the result with `read_data`
yields the original sequence, field for field and in the same order. -/
theorem spec_c4 (finances : List Record) (h : finances ≠ []) :
    ∃ f : StoreFile,
      write_data finances = .ok f ∧ read_data f = some finances := by
  refine ⟨⟨fieldNames, finances.map Record.toRow⟩, write_data_ne_nil h, ?_⟩
  simp [read_data, decodeRows_toRow]

theorem spec_c4_witness :
    ∃ f : StoreFile,
      write_data [rec1, rec2] = .ok f ∧ read_data f = some [rec1, rec2] :=
  spec_c4 [rec1, rec2] (by simp)

/-- C5: `write_data` on an empty record sequence fails with the
`IndexError`-class error (the header is derived from the first record's
keys), and on any non-empty sequence succeeds, writing the header followed by
one row per record. -/
theorem spec_c5 :
    write_data ([] : List Record) = .error .indexError ∧
    ∀ (r : Record) (rs : List Record),
      write_data (r :: rs) =
        .ok { header := fieldNames, rows := (r :: rs).map Record.toRow } :=
  ⟨rfl, fun _ _ => rfl⟩

/-- C6: For every store and every id not present in it, `edit_entry` performs
no write: the resulting state (store file and counter file) is exactly the
input state. -/
theorem spec_c6 (s : FS) (entry_id : String) (inp : FieldInput)
    (h : ∀ r ∈ s.store, r.id ≠ entry_id) :
    edit_entry entry_id inp s = .ok s :=
  edit_entry_notfound inp h

theorem spec_c6_witness :
    edit_entry "99" ⟨"x", "", "", "", ""⟩ fsEx = .ok fsEx :=
  spec_c6 fsEx "99" ⟨"x", "", "", "", ""⟩ (by decide)

/-- C7: `load_last_id` returns 1 whenever the counter file is absent, and
returns the parsed base-10 integer content whenever the file is present and
well-formed; absence is never surfaced as an error. -/
theorem spec_c7 :
    load_last_id none = .ok 1 ∧
    ∀ (content : String) (n : Int),
      pyInt content = some n → load_last_id (some content) = .ok n := by
  refine ⟨rfl, ?_⟩
  intro content n h
  simp [load_last_id, h]

theorem spec_c7_witness :
    load_last_id none = .ok 1 ∧ load_last_id (some "5") = .ok 5 :=
  ⟨spec_c7.1, spec_c7.2 "5" 5 (by decide)⟩

/-- C8: If the counter file exists but its content is not a parseable base-10
integer — witnessed by the sound criterion `strictlyMalformed`: the content
contains an ASCII character that can occur nowhere in a numeral `int()`
accepts, whatever use the content makes of `int()`'s underscore and Unicode
extensions — then `load_last_id` raises the unhandled `ValueError` (only the
file-not-found case is caught), so `get_next_id` and with it every add
operation fails fatally on such a counter file. -/
theorem spec_c8 (content : String) (h : strictlyMalformed content = true) :
    load_last_id (some content) = .error .valueError ∧
    get_next_id (some content) = .error .valueError ∧
    ∀ (inp : FieldInput) (store : List Record),
      add_entry inp { store := store, lastIdFile := some content } =
        .error .valueError := by
  have hnone := pyInt_strictlyMalformed h
  have h1 : load_last_id (some content) = .error .valueError := by
    simp [load_last_id, hnone]
  refine ⟨h1, by simp [get_next_id, h1, Except.map], ?_⟩
  intro inp store
  simp [add_entry, get_next_id, h1, Except.map, Bind.bind, Except.bind]

theorem spec_c8_witness :
    load_last_id (some "abc") = .error .valueError ∧
    get_next_id (some "abc") = .error .valueError ∧
    add_entry ⟨"", "", "", "", ""⟩ { store := [], lastIdFile := some "abc" } =
      .error .valueError := by
  obtain ⟨a, b, c⟩ := spec_c8 "abc" (by decide)
  exact ⟨a, b, c ⟨"", "", "", "", ""⟩ []⟩

/-- C9: For every store containing two or more records with the same id,
`edit_entry` on that id rewrites only the first record (in sequence order)
bearing it; the suffix `l₂`, which holds every later record with that id, is
returned unchanged. -/
theorem spec_c9 (s : FS) (entry_id : String) (inp : FieldInput)
    (l₁ l₂ : List Record) (r : Record)
    (hsplit : s.store = l₁ ++ r :: l₂)
    (hid : r.id = entry_id)
    (hfirst : ∀ r' ∈ l₁, r'.id ≠ entry_id)
    (_hdup : ∃ r' ∈ l₂, r'.id = entry_id) :
    edit_entry entry_id inp s =
      .ok { store := l₁ ++ applyOverrides inp r :: l₂,
            lastIdFile := s.lastIdFile } :=
  edit_entry_found inp hsplit hid hfirst

theorem spec_c9_witness :
    edit_entry "2" ⟨"", "", "150", "", ""⟩ fsDup =
      .ok { store := [⟨"2", "2024-01-01", "income", "150", "salary", "Jan"⟩,
                      rec2dup],
            lastIdFile := some "3" } := by
  have h := spec_c9 fsDup "2" ⟨"", "", "150", "", ""⟩ [] [rec2dup] rec1 rfl rfl
    (fun r' hr' => absurd hr' (List.not_mem_nil r')) ⟨rec2dup, by simp, rfl⟩
  exact h

/-- C10: For every store whose counter loads as `k`, one add operation writes
back exactly the previously loaded record sequence with the single new record
appended at the last position, and the new record's id is the string form of
the freshly generated integer id `k + 1`. -/
theorem spec_c10 (s : FS) (inp : FieldInput) (k : Int)
    (h : load_last_id s.lastIdFile = .ok k) :
    add_entry inp s =
      .ok { store := s.store ++ [mkEntry (k + 1) inp],
            lastIdFile := some (pyStr (k + 1)) } ∧
    (mkEntry (k + 1) inp).id = pyStr (k + 1) :=
  ⟨add_entry_eq inp h, rfl⟩

theorem spec_c10_witness :
    add_entry ⟨"2024-03-01", "income", "5", "bonus", "Mar"⟩ fsEx =
      .ok { store := [rec1, rec2,
                      ⟨"4", "2024-03-01", "income", "5", "bonus", "Mar"⟩],
            lastIdFile := some "4" } ∧
    (mkEntry 4 ⟨"2024-03-01", "income", "5", "bonus", "Mar"⟩).id = "4" := by
  have h := spec_c10 fsEx ⟨"2024-03-01", "income", "5", "bonus", "Mar"⟩ 3 rfl
  exact h

end Finance
